import Mathlib

/-
Verification of the request-gating and data-freshness layer of `src/app.py`
(HTTP market-data service): the rolling-window rate limiter (`RateLimiter`),
the TTL cache (`get_cached_data` / `cache_data`), the retry/backoff fetcher
(`get_ticker_data_with_backoff`) and the batch endpoint (`get_stock_data`).

Modelling conventions (shallow embedding):
- Timestamps are natural numbers (seconds).  Python's `datetime.now()` values
  become explicit `Nat` parameters; all `datetime.now()` reads inside one loop
  iteration of the fetcher are modelled as the same instant.
- Python's `(a - b).seconds` on a timedelta is the seconds component of the
  normalized timedelta, i.e. the total elapsed seconds modulo 86400 (one day);
  it is embedded as `(a - b) % 86400`.  This is NOT `total_seconds()`, and the
  distinction is load-bearing below.
- The upstream provider (`yfinance`) is an oracle: per attempt it either
  returns a data frame (a list of rows, possibly empty) or raises an exception
  with a message string (`HistRes`).  `try/except` becomes a `match` on that
  oracle value.  The supplementary `fast_info` block never fails an attempt
  (its own try/except defaults to `{}` in the source), so it is an oracle
  producing the `info` value directly.
- The pandas row-reshaping inside `get_stock_data` (field extraction from the
  frame) is out of scope per the design document; a processed row is
  represented by its ticker symbol.  The presentation-only fields
  `cache_info`, `rate_limit_info` and the human-readable `message` string are
  omitted; `failed_tickers` and the status/counters are embedded exactly.
-/

/-! ## Freshness Cache (src/app.py lines 47-62)

`ticker_cache` maps a key to `(storedAt, data)`.  A stored datum is an
arbitrary Python object, possibly `None`; it is embedded as `Option β` with
`none` standing for Python `None`. -/

/-- The cache: `ticker_cache` from src/app.py line 48, as a total lookup
function.  An absent key maps to `none`. -/
def Cache (β : Type) : Type := String → Option (Nat × Option β)

/-- `CACHE_DURATION = 300` (src/app.py line 49). -/
def CACHE_DURATION : Nat := 300

/-- `get_cached_data` (src/app.py lines 51-58): if the key is present and
`(now - cached_time).seconds < CACHE_DURATION`, return the stored datum,
else return Python `None`.  The `.seconds` component is `(now - t) % 86400`. -/
def get_cached_data {β : Type} (c : Cache β) (ticker : String) (now : Nat) : Option β :=
  match c ticker with
  | some (cached_time, data) =>
      if (now - cached_time) % 86400 < CACHE_DURATION then data else none
  | none => none

/-- `cache_data` (src/app.py lines 60-62): `ticker_cache[ticker] = (now, data)`. -/
def cache_data {β : Type} (c : Cache β) (ticker : String) (data : Option β) (now : Nat) :
    Cache β :=
  fun k => if k = ticker then some (now, data) else c k

/-! ## Admission Gate (src/app.py lines 17-45) -/

/-- `RateLimiter` (src/app.py lines 18-23): configuration plus the list of
admitted request timestamps (the lock is irrelevant in this sequential
embedding). -/
structure RateLimiter where
  max_requests : Nat
  time_window : Nat
  requests : List Nat
deriving DecidableEq

/-- `RateLimiter.can_make_request` (src/app.py lines 25-35): drop entries with
`(now - t).seconds >= time_window`, then admit (appending `now`) iff fewer
than `max_requests` remain.  Returns the decision and the updated limiter. -/
def can_make_request (rl : RateLimiter) (now : Nat) : Bool × RateLimiter :=
  let reqs := rl.requests.filter (fun t => (now - t) % 86400 < rl.time_window)
  if reqs.length < rl.max_requests then
    (true, ⟨rl.max_requests, rl.time_window, reqs ++ [now]⟩)
  else
    (false, ⟨rl.max_requests, rl.time_window, reqs⟩)

/-- Minimum of a list of naturals (`min(self.requests)` in Python),
`none` on the empty list. -/
def listMin : List Nat → Option Nat
  | [] => none
  | a :: as =>
      match listMin as with
      | none => some a
      | some m => some (min a m)

/-- `RateLimiter.wait_time` (src/app.py lines 37-42): `0` when no requests
are recorded, otherwise `max(0, time_window - (now - oldest).seconds)`;
`Nat` subtraction supplies the `max 0` flooring. -/
def wait_time (rl : RateLimiter) (now : Nat) : Nat :=
  match listMin rl.requests with
  | none => 0
  | some oldest => rl.time_window - ((now - oldest) % 86400)

/-! ## Traces of admission checks (for the sliding-window invariant) -/

/-- The timestamps of the `proceed` (True) decisions produced by running a
(time-ordered) trace of `can_make_request` calls against a limiter. -/
def runAdmitted (rl : RateLimiter) : List Nat → List Nat
  | [] => []
  | t :: ts =>
      let s := can_make_request rl t
      (if s.1 then [t] else []) ++ runAdmitted s.2 ts

/-- The limiter state after running a trace of `can_make_request` calls. -/
def runState (rl : RateLimiter) : List Nat → RateLimiter
  | [] => rl
  | t :: ts => runState (can_make_request rl t).2 ts

/-- Number of timestamps of `l` inside the trailing window of length `w`
ending at instant `T` (the window the code itself uses: `t ≤ T` and
`T - t < w`). -/
def wcount (w T : Nat) : List Nat → Nat
  | [] => 0
  | t :: ts => (if t ≤ T ∧ T - t < w then 1 else 0) + wcount w T ts

/-! ## String helpers (Python's `in` substring test, src/app.py line 147) -/

/-- Whether `needle` occurs at the head of `hay`. -/
def matchesAt : List Char → List Char → Bool
  | [], _ => true
  | _ :: _, [] => false
  | a :: ns, b :: hs => a == b && matchesAt ns hs

/-- Whether `needle` occurs as a contiguous run anywhere in `hay`. -/
def hasSub (needle : List Char) : List Char → Bool
  | [] => needle.isEmpty
  | b :: hs => matchesAt needle (b :: hs) || hasSub needle hs

/-- Python's `needle in hay` on strings. -/
def strContains (hay needle : String) : Bool :=
  hasSub needle.toList hay.toList

/-- The rate-limit classification test of src/app.py line 147:
`"429" in str(e) or "Too Many Requests" in str(e)`. -/
def isRateLimitMsg (e : String) : Bool :=
  strContains e "429" || strContains e "Too Many Requests"

/-! ## Resilient Fetcher (src/app.py lines 93-155)

`ρ` is the type of one historical data-frame row, `ι` the type of the
`additional_info` dictionary. -/

/-- The payload cached and returned on success
(`result = {'history': hist, 'info': additional_info}`, src/app.py
lines 132-135). -/
structure Payload (ρ ι : Type) where
  history : List ρ
  info : ι
deriving DecidableEq

/-- Outcome of one `stock.history(...)` upstream call (src/app.py line 112):
either a frame (list of rows, possibly empty) or a raised exception whose
`str(e)` is the given message. -/
inductive HistRes (ρ : Type) where
  | frame (rows : List ρ)
  | exn (msg : String)
deriving DecidableEq

/-- Whether one upstream outcome makes the attempt fail: an empty frame
(src/app.py line 114) or any raised exception (line 145).  Only a non-empty
frame succeeds. -/
def attemptFails {ρ : Type} : HistRes ρ → Bool
  | HistRes.frame [] => true
  | HistRes.frame (_ :: _) => false
  | HistRes.exn _ => true

/-- Result of `get_ticker_data_with_backoff`, together with the final shared
state and an observation log: the sleep durations issued (in order), the
number of upstream `stock.history` calls, and the number of
`can_make_request` admission checks. -/
structure FetchOut (ρ ι : Type) where
  result : Option (Payload ρ ι)
  cache : Cache (Payload ρ ι)
  limiter : RateLimiter
  sleeps : List Nat
  calls : Nat
  admChecks : Nat

/-- The retry loop of `get_ticker_data_with_backoff` (src/app.py
lines 100-155).  `fuel` is the number of remaining iterations
(`max_retries - attempt`); `attempt` is the 0-based loop index.
Per iteration: one admission check (sleeping `wait_time + 1` on denial and
proceeding regardless, lines 101-104), then the upstream call
(`histO attempt`).  An empty frame backs off `2 ^ attempt` (line 116); a
rate-limit exception backs off `3 ^ attempt + 5` (line 148); any other
exception backs off `2 ^ attempt` (line 152); a non-empty frame is cached,
followed by the fixed pacing sleep of 1 (line 141), and returned.
Exhausted fuel returns `none` (line 155). -/
def fetchLoop {ρ ι : Type} (histO : Nat → HistRes ρ) (infoO : Nat → ι)
    (times : Nat → Nat) (ticker : String) :
    Nat → Nat → Cache (Payload ρ ι) → RateLimiter → List Nat → Nat → Nat → FetchOut ρ ι
  | 0, _, c, rl, sleeps, calls, checks => ⟨none, c, rl, sleeps, calls, checks⟩
  | fuel + 1, attempt, c, rl, sleeps, calls, checks =>
      let now := times attempt
      let s := can_make_request rl now
      let sleeps1 := if s.1 then sleeps else sleeps ++ [wait_time s.2 now + 1]
      match histO attempt with
      | HistRes.exn e =>
          if isRateLimitMsg e then
            fetchLoop histO infoO times ticker fuel (attempt + 1) c s.2
              (sleeps1 ++ [3 ^ attempt + 5]) (calls + 1) (checks + 1)
          else
            fetchLoop histO infoO times ticker fuel (attempt + 1) c s.2
              (sleeps1 ++ [2 ^ attempt]) (calls + 1) (checks + 1)
      | HistRes.frame [] =>
          fetchLoop histO infoO times ticker fuel (attempt + 1) c s.2
            (sleeps1 ++ [2 ^ attempt]) (calls + 1) (checks + 1)
      | HistRes.frame (r :: rs) =>
          let result : Payload ρ ι := ⟨r :: rs, infoO attempt⟩
          ⟨some result, cache_data c ticker (some result) now, s.2,
            sleeps1 ++ [1], calls + 1, checks + 1⟩

/-- `get_ticker_data_with_backoff` (src/app.py lines 93-155): consult the
cache at instant `tc` (lines 96-98, returning immediately on a non-`None`
hit) and otherwise run the retry loop with `maxRetries` attempts. -/
def get_ticker_data_with_backoff {ρ ι : Type} (histO : Nat → HistRes ρ) (infoO : Nat → ι)
    (times : Nat → Nat) (tc : Nat) (maxRetries : Nat) (ticker : String)
    (c : Cache (Payload ρ ι)) (rl : RateLimiter) : FetchOut ρ ι :=
  match get_cached_data c ticker tc with
  | some v => ⟨some v, c, rl, [], 0, 0⟩
  | none => fetchLoop histO infoO times ticker maxRetries 0 c rl [] 0 0

/-! ## Batch endpoint (src/app.py lines 157-258)

The oracles are indexed per ticker.  A processed row is represented by its
ticker symbol (the pandas field extraction of lines 205-229 is
provider-specific reshaping, out of the verified core; it is modelled as
always succeeding for a non-empty history). -/

/-- Accumulated state of the per-ticker loop of `get_stock_data`
(src/app.py lines 182-232): the successful rows (as symbols), the failed
tickers, and the threaded cache and limiter. -/
structure BatchOut (ρ ι : Type) where
  rows : List String
  failed : List String
  cache : Cache (Payload ρ ι)
  limiter : RateLimiter

/-- The per-ticker loop of `get_stock_data` (src/app.py lines 185-232):
fetch each ticker in order through `get_ticker_data_with_backoff` (with
`max_retries = 3`), threading cache and limiter; a `None` result or an empty
history sends the ticker to `failed_tickers` (lines 194-196 and 201-203),
otherwise a row is appended. -/
def processTickers {ρ ι : Type} (histO : String → Nat → HistRes ρ)
    (infoO : String → Nat → ι) (times : String → Nat → Nat) (tcO : String → Nat) :
    List String → Cache (Payload ρ ι) → RateLimiter → BatchOut ρ ι
  | [], c, rl => ⟨[], [], c, rl⟩
  | t :: ts, c, rl =>
      let out := get_ticker_data_with_backoff (histO t) (infoO t) (times t) (tcO t) 3 t c rl
      let rest := processTickers histO infoO times tcO ts out.cache out.limiter
      match out.result with
      | none => ⟨rest.rows, t :: rest.failed, rest.cache, rest.limiter⟩
      | some p =>
          if p.history.isEmpty then ⟨rest.rows, t :: rest.failed, rest.cache, rest.limiter⟩
          else ⟨t :: rest.rows, rest.failed, rest.cache, rest.limiter⟩

/-- The JSON body and HTTP code produced by `get_stock_data`
(src/app.py lines 234-254), minus the presentation-only `cache_info`,
`rate_limit_info` and `message` strings.  Python omits the
`failed_tickers` key when the list is empty; here the empty list carries the
same information. -/
structure StockResponse where
  status : String
  data : List String
  processed_count : Nat
  requested_count : Nat
  failed_tickers : List String
  http_code : Nat
deriving DecidableEq

/-- `get_stock_data` (src/app.py lines 157-254) from the cleaned ticker list
onward (request parsing and validation, lines 159-178, are thin I/O wrappers
outside the verified core).  The overall status is the source's ternary
`"success" if rows else "partial_success" if failed_tickers else "error"`
(line 235); when no rows were produced the endpoint instead returns the 404
body of lines 247-252. -/
def get_stock_data {ρ ι : Type} (histO : String → Nat → HistRes ρ)
    (infoO : String → Nat → ι) (times : String → Nat → Nat) (tcO : String → Nat)
    (tickers : List String) (c : Cache (Payload ρ ι)) (rl : RateLimiter) : StockResponse :=
  let b := processTickers histO infoO times tcO tickers c rl
  if b.rows.isEmpty then
    ⟨"error", [], 0, tickers.length, b.failed, 404⟩
  else
    ⟨if !b.rows.isEmpty then "success"
      else if !b.failed.isEmpty then "partial_success" else "error",
      b.rows, b.rows.length, tickers.length, b.failed, 200⟩

/-! ## Helper lemmas -/

theorem wcount_append (w T : Nat) (l1 l2 : List Nat) :
    wcount w T (l1 ++ l2) = wcount w T l1 + wcount w T l2 := by
  induction l1 with
  | nil => simp [wcount]
  | cons a as ih => simp [wcount, ih, Nat.add_assoc]

theorem wcount_le_length (w T : Nat) (l : List Nat) : wcount w T l ≤ l.length := by
  induction l with
  | nil => simp [wcount]
  | cons a as ih =>
      simp only [wcount, List.length_cons]
      split <;> omega

theorem wcount_le_filter (w T : Nat) (p : Nat → Bool) (l : List Nat)
    (h : ∀ t ∈ l, t ≤ T → T - t < w → p t = true) :
    wcount w T l ≤ wcount w T (l.filter p) := by
  induction l with
  | nil => simp
  | cons a as ih =>
      have ih' := ih fun t ht => h t (List.mem_cons_of_mem _ ht)
      by_cases hp : p a = true
      · rw [List.filter_cons, if_pos hp]
        simp only [wcount]
        omega
      · have ha : ¬(a ≤ T ∧ T - a < w) :=
          fun hh => hp (h a (List.mem_cons_self a as) hh.1 hh.2)
        rw [List.filter_cons, if_neg hp]
        simp only [wcount, if_neg ha]
        omega

theorem wcount_eq_zero (w T : Nat) (l : List Nat) (h : ∀ t ∈ l, T < t) :
    wcount w T l = 0 := by
  induction l with
  | nil => rfl
  | cons a as ih =>
      have ha : ¬(a ≤ T ∧ T - a < w) :=
        fun hh => absurd (h a (List.mem_cons_self a as)) (not_lt.mpr hh.1)
      simp only [wcount, if_neg ha]
      simpa using ih fun t ht => h t (List.mem_cons_of_mem _ ht)

theorem can_make_request_max (rl : RateLimiter) (now : Nat) :
    (can_make_request rl now).2.max_requests = rl.max_requests := by
  simp only [can_make_request]
  split <;> rfl

theorem can_make_request_length (rl : RateLimiter) (now : Nat)
    (h : rl.requests.length ≤ rl.max_requests) :
    (can_make_request rl now).2.requests.length ≤ rl.max_requests := by
  have hf := List.length_filter_le (fun t => (now - t) % 86400 < rl.time_window) rl.requests
  simp only [can_make_request]
  split
  next hlt => simpa using hlt
  next hge => simpa using le_trans hf h

theorem runAdmitted_mem (x : Nat) :
    ∀ (tr : List Nat) (rl : RateLimiter), x ∈ runAdmitted rl tr → x ∈ tr := by
  intro tr
  induction tr with
  | nil => intro rl h; simp [runAdmitted] at h
  | cons t ts ih =>
      intro rl h
      simp only [runAdmitted] at h
      rcases List.mem_append.mp h with h1 | h2
      · by_cases hb : (can_make_request rl t).1 = true
        · rw [if_pos hb] at h1
          simp only [List.mem_singleton] at h1
          exact h1 ▸ List.mem_cons_self t ts
        · rw [if_neg hb] at h1
          simp at h1
      · exact List.mem_cons_of_mem t (ih _ h2)

theorem runState_length (m : Nat) :
    ∀ (tr : List Nat) (rl : RateLimiter), rl.max_requests = m →
      rl.requests.length ≤ m → (runState rl tr).requests.length ≤ m := by
  intro tr
  induction tr with
  | nil => intro rl _ h; exact h
  | cons t ts ih =>
      intro rl hm h
      simp only [runState]
      refine ih _ (by rw [can_make_request_max, hm]) ?_
      have := can_make_request_length rl t (hm ▸ h)
      omega

theorem runAdmitted_key (m w : Nat) :
    ∀ (tr : List Nat), List.Sorted (· ≤ ·) tr →
      ∀ (reqs : List Nat), reqs.length ≤ m →
        (∀ t ∈ reqs, ∀ u ∈ tr, t ≤ u) →
        ∀ T, wcount w T (runAdmitted ⟨m, w, reqs⟩ tr) + wcount w T reqs ≤ m := by
  intro tr
  induction tr with
  | nil =>
      intro _ reqs hlen _ T
      simpa [runAdmitted, wcount] using le_trans (wcount_le_length w T reqs) hlen
  | cons now ts ih =>
      intro hsort reqs hlen hmono T
      obtain ⟨hnow, hsort2⟩ := List.sorted_cons.mp hsort
      have hsub : ∀ t ∈ reqs.filter (fun t => (now - t) % 86400 < w), ∀ u ∈ ts, t ≤ u :=
        fun t ht u hu => hmono t (List.mem_of_mem_filter ht) u (List.mem_cons_of_mem _ hu)
      have hcov : now ≤ T → wcount w T reqs ≤
          wcount w T (reqs.filter (fun t => (now - t) % 86400 < w)) := by
        intro hT
        refine wcount_le_filter w T _ reqs fun t ht h1 h2 => ?_
        have htn : t ≤ now := hmono t ht now (List.mem_cons_self _ _)
        have : (now - t) % 86400 < w :=
          lt_of_le_of_lt (le_trans (Nat.mod_le _ _) (Nat.sub_le_sub_right hT t)) h2
        exact decide_eq_true this
      by_cases hok : (reqs.filter (fun t => (now - t) % 86400 < w)).length < m
      · have hstep : runAdmitted ⟨m, w, reqs⟩ (now :: ts) =
            now :: runAdmitted ⟨m, w, reqs.filter (fun t => (now - t) % 86400 < w) ++ [now]⟩ ts := by
          simp [runAdmitted, can_make_request, hok]
        have hlen2 : (reqs.filter (fun t => (now - t) % 86400 < w) ++ [now]).length ≤ m := by
          simp only [List.length_append, List.length_singleton]
          omega
        have hmono2 : ∀ t ∈ reqs.filter (fun t => (now - t) % 86400 < w) ++ [now],
            ∀ u ∈ ts, t ≤ u := by
          intro t ht u hu
          rcases List.mem_append.mp ht with h1 | h2
          · exact hsub t h1 u hu
          · simp only [List.mem_singleton] at h2
            exact h2 ▸ hnow u hu
        have hih := ih hsort2 _ hlen2 hmono2 T
        rw [wcount_append] at hih
        rw [hstep]
        by_cases hT : now ≤ T
        · have := hcov hT
          simp only [wcount] at hih ⊢
          omega
        · have h0 : wcount w T
              (runAdmitted ⟨m, w, reqs.filter (fun t => (now - t) % 86400 < w) ++ [now]⟩ ts) = 0 :=
            wcount_eq_zero w T _ fun x hx =>
              lt_of_lt_of_le (not_le.mp hT) (hnow x (runAdmitted_mem x ts _ hx))
          have hr := le_trans (wcount_le_length w T reqs) hlen
          have hind : ¬(now ≤ T ∧ T - now < w) := fun hh => hT hh.1
          simp only [wcount, if_neg hind, h0]
          omega
      · have hstep : runAdmitted ⟨m, w, reqs⟩ (now :: ts) =
            runAdmitted ⟨m, w, reqs.filter (fun t => (now - t) % 86400 < w)⟩ ts := by
          simp [runAdmitted, can_make_request, hok]
        have hlen2 : (reqs.filter (fun t => (now - t) % 86400 < w)).length ≤ m :=
          le_trans (List.length_filter_le _ _) hlen
        have hih := ih hsort2 _ hlen2 hsub T
        rw [hstep]
        by_cases hT : now ≤ T
        · have := hcov hT
          omega
        · have h0 : wcount w T
              (runAdmitted ⟨m, w, reqs.filter (fun t => (now - t) % 86400 < w)⟩ ts) = 0 :=
            wcount_eq_zero w T _ fun x hx =>
              lt_of_lt_of_le (not_le.mp hT) (hnow x (runAdmitted_mem x ts _ hx))
          have hr := le_trans (wcount_le_length w T reqs) hlen
          omega

theorem fetchLoop_calls_le {ρ ι : Type} (histO : Nat → HistRes ρ) (infoO : Nat → ι)
    (times : Nat → Nat) (ticker : String) :
    ∀ (fuel attempt : Nat) (c : Cache (Payload ρ ι)) (rl : RateLimiter)
      (sleeps : List Nat) (calls checks : Nat),
      calls ≤ (fetchLoop histO infoO times ticker fuel attempt c rl sleeps calls checks).calls := by
  intro fuel
  induction fuel with
  | zero => intro attempt c rl sleeps calls checks; simp [fetchLoop]
  | succ n ih =>
      intro attempt c rl sleeps calls checks
      simp only [fetchLoop]
      split
      all_goals try split
      all_goals first
        | exact le_trans (Nat.le_succ calls) (ih _ _ _ _ _ _)
        | exact Nat.le_succ calls

theorem fetchLoop_checks_le {ρ ι : Type} (histO : Nat → HistRes ρ) (infoO : Nat → ι)
    (times : Nat → Nat) (ticker : String) :
    ∀ (fuel attempt : Nat) (c : Cache (Payload ρ ι)) (rl : RateLimiter)
      (sleeps : List Nat) (calls checks : Nat),
      checks ≤
        (fetchLoop histO infoO times ticker fuel attempt c rl sleeps calls checks).admChecks := by
  intro fuel
  induction fuel with
  | zero => intro attempt c rl sleeps calls checks; simp [fetchLoop]
  | succ n ih =>
      intro attempt c rl sleeps calls checks
      simp only [fetchLoop]
      split
      all_goals try split
      all_goals first
        | exact le_trans (Nat.le_succ checks) (ih _ _ _ _ _ _)
        | exact Nat.le_succ checks

theorem fetchLoop_calls_pos {ρ ι : Type} (histO : Nat → HistRes ρ) (infoO : Nat → ι)
    (times : Nat → Nat) (ticker : String) (n attempt : Nat) (c : Cache (Payload ρ ι))
    (rl : RateLimiter) (sleeps : List Nat) (calls checks : Nat) :
    calls + 1 ≤
      (fetchLoop histO infoO times ticker (n + 1) attempt c rl sleeps calls checks).calls := by
  simp only [fetchLoop]
  split
  all_goals try split
  all_goals first
    | exact fetchLoop_calls_le histO infoO times ticker _ _ _ _ _ _ _
    | exact le_refl _

theorem fetchLoop_checks_pos {ρ ι : Type} (histO : Nat → HistRes ρ) (infoO : Nat → ι)
    (times : Nat → Nat) (ticker : String) (n attempt : Nat) (c : Cache (Payload ρ ι))
    (rl : RateLimiter) (sleeps : List Nat) (calls checks : Nat) :
    checks + 1 ≤
      (fetchLoop histO infoO times ticker (n + 1) attempt c rl sleeps
        calls checks).admChecks := by
  simp only [fetchLoop]
  split
  all_goals try split
  all_goals first
    | exact fetchLoop_checks_le histO infoO times ticker _ _ _ _ _ _ _
    | exact le_refl _

theorem sleeps1_extend (rl : RateLimiter) (now : Nat) (sleeps : List Nat) :
    ∃ l0, (if (can_make_request rl now).1 = true then sleeps
      else sleeps ++ [wait_time (can_make_request rl now).2 now + 1]) = sleeps ++ l0 := by
  by_cases hb : (can_make_request rl now).1 = true
  · exact ⟨[], by rw [if_pos hb, List.append_nil]⟩
  · exact ⟨[wait_time (can_make_request rl now).2 now + 1], by rw [if_neg hb]⟩

theorem fetchLoop_sleeps_extend {ρ ι : Type} (histO : Nat → HistRes ρ) (infoO : Nat → ι)
    (times : Nat → Nat) (ticker : String) :
    ∀ (fuel attempt : Nat) (c : Cache (Payload ρ ι)) (rl : RateLimiter)
      (sleeps : List Nat) (calls checks : Nat),
      ∃ l, (fetchLoop histO infoO times ticker fuel attempt c rl sleeps calls checks).sleeps =
        sleeps ++ l := by
  intro fuel
  induction fuel with
  | zero =>
      intro attempt c rl sleeps calls checks
      exact ⟨[], by simp [fetchLoop]⟩
  | succ n ih =>
      intro attempt c rl sleeps calls checks
      obtain ⟨l0, hl0⟩ := sleeps1_extend rl (times attempt) sleeps
      simp only [fetchLoop]
      split
      · split
        · rw [hl0]
          obtain ⟨l2, h2⟩ := ih (attempt + 1) c (can_make_request rl (times attempt)).2
            (sleeps ++ l0 ++ [3 ^ attempt + 5]) (calls + 1) (checks + 1)
          exact ⟨l0 ++ [3 ^ attempt + 5] ++ l2, by rw [h2]; simp [List.append_assoc]⟩
        · rw [hl0]
          obtain ⟨l2, h2⟩ := ih (attempt + 1) c (can_make_request rl (times attempt)).2
            (sleeps ++ l0 ++ [2 ^ attempt]) (calls + 1) (checks + 1)
          exact ⟨l0 ++ [2 ^ attempt] ++ l2, by rw [h2]; simp [List.append_assoc]⟩
      · rw [hl0]
        obtain ⟨l2, h2⟩ := ih (attempt + 1) c (can_make_request rl (times attempt)).2
          (sleeps ++ l0 ++ [2 ^ attempt]) (calls + 1) (checks + 1)
        exact ⟨l0 ++ [2 ^ attempt] ++ l2, by rw [h2]; simp [List.append_assoc]⟩
      · rw [hl0]
        exact ⟨l0 ++ [1], by rw [List.append_assoc]⟩

theorem fetchLoop_sleeps_head {ρ ι : Type} (histO : Nat → HistRes ρ) (infoO : Nat → ι)
    (times : Nat → Nat) (ticker : String) (fuel attempt : Nat) (c : Cache (Payload ρ ι))
    (rl : RateLimiter) (a : Nat) (sl : List Nat) (calls checks : Nat) :
    (fetchLoop histO infoO times ticker fuel attempt c rl (a :: sl)
      calls checks).sleeps.head? = some a := by
  obtain ⟨l, hl⟩ := fetchLoop_sleeps_extend histO infoO times ticker fuel attempt c rl
    (a :: sl) calls checks
  rw [hl]
  rfl

theorem fetchLoop_result_none {ρ ι : Type} (histO : Nat → HistRes ρ) (infoO : Nat → ι)
    (times : Nat → Nat) (ticker : String) :
    ∀ (fuel attempt : Nat) (c : Cache (Payload ρ ι)) (rl : RateLimiter)
      (sleeps : List Nat) (calls checks : Nat),
      (∀ i, attempt ≤ i → i < attempt + fuel → attemptFails (histO i) = true) →
      (fetchLoop histO infoO times ticker fuel attempt c rl sleeps calls checks).result =
        none := by
  intro fuel
  induction fuel with
  | zero => intro attempt c rl sleeps calls checks _; simp [fetchLoop]
  | succ n ih =>
      intro attempt c rl sleeps calls checks h
      have hshift : ∀ i, attempt + 1 ≤ i → i < attempt + 1 + n → attemptFails (histO i) = true :=
        fun i h1 h2 => h i (by omega) (by omega)
      simp only [fetchLoop]
      split
      · split
        · exact ih _ _ _ _ _ _ hshift
        · exact ih _ _ _ _ _ _ hshift
      · exact ih _ _ _ _ _ _ hshift
      · next r rs heq =>
          have hf := h attempt (le_refl _) (by omega)
          rw [heq] at hf
          simp [attemptFails] at hf

theorem processTickers_mem {ρ ι : Type} (histO : String → Nat → HistRes ρ)
    (infoO : String → Nat → ι) (times : String → Nat → Nat) (tcO : String → Nat) :
    ∀ (ts : List String) (c : Cache (Payload ρ ι)) (rl : RateLimiter) (t : String),
      t ∈ ts →
      t ∈ (processTickers histO infoO times tcO ts c rl).rows ∨
      t ∈ (processTickers histO infoO times tcO ts c rl).failed := by
  intro ts
  induction ts with
  | nil => intro c rl t ht; simp at ht
  | cons a as ih =>
      intro c rl t ht
      have hrec := ih
        (get_ticker_data_with_backoff (histO a) (infoO a) (times a) (tcO a) 3 a c rl).cache
        (get_ticker_data_with_backoff (histO a) (infoO a) (times a) (tcO a) 3 a c rl).limiter
        t
      rcases List.mem_cons.mp ht with rfl | hmem
      · simp only [processTickers]
        split
        · exact Or.inr (List.mem_cons_self _ _)
        · split
          · exact Or.inr (List.mem_cons_self _ _)
          · exact Or.inl (List.mem_cons_self _ _)
      · simp only [processTickers]
        split
        · rcases hrec hmem with h | h
          · exact Or.inl h
          · exact Or.inr (List.mem_cons_of_mem _ h)
        · split
          · rcases hrec hmem with h | h
            · exact Or.inl h
            · exact Or.inr (List.mem_cons_of_mem _ h)
          · rcases hrec hmem with h | h
            · exact Or.inl (List.mem_cons_of_mem _ h)
            · exact Or.inr h

/-! ## Claim theorems -/

/-- Claim C2: for every time-ordered trace of `can_make_request` checks, the
number of `True` (proceed) decisions whose timestamps fall within any
trailing `time_window`-second interval never exceeds `max_requests`, and the
count of recorded request timestamps inside that trailing window is likewise
at most the maximum.  The trailing window ending at instant `T` is the
code's own notion of window membership: timestamps `t ≤ T` with
`T - t < time_window`.  (The mod-86400 `.seconds` quirk of the filter only
ever retains extra old entries, which is conservative, so the bound holds.) -/
theorem can_make_request_sliding_window_bound (m w : Nat) (tr : List Nat)
    (hsort : List.Sorted (· ≤ ·) tr) (T : Nat) :
    wcount w T (runAdmitted ⟨m, w, []⟩ tr) ≤ m ∧
    wcount w T (runState ⟨m, w, []⟩ tr).requests ≤ m := by
  constructor
  · have h := runAdmitted_key m w tr hsort [] (by simp) (by simp) T
    simpa [wcount] using h
  · exact le_trans (wcount_le_length _ _ _) (runState_length m tr ⟨m, w, []⟩ rfl (by simp))

/-- Witness for C2 at a concrete trace: five checks at time 0 all admitted,
a sixth at 0 and a seventh at 10 denied; the window count stays at 5. -/
theorem can_make_request_sliding_window_bound_witness :
    wcount 60 10 (runAdmitted ⟨5, 60, []⟩ [0, 0, 0, 0, 0, 0, 10]) ≤ 5 ∧
    wcount 60 10 (runState ⟨5, 60, []⟩ [0, 0, 0, 0, 0, 0, 10]).requests ≤ 5 :=
  can_make_request_sliding_window_bound 5 60 [0, 0, 0, 0, 0, 0, 10] (by decide) 10

/-- Claim C3 (code-bug evaluation): `get_cached_data` is supposed to return
nothing once `CACHE_DURATION` (300) seconds have elapsed since the last
`cache_data` for the key, but the code tests `(now - cached_time).seconds` —
the timedelta's mod-86400 seconds component — instead of the total elapsed
seconds.  An entry stored 86400 seconds (exactly one day) earlier, far past
the TTL, is therefore still served. -/
theorem get_cached_data_stale_after_one_day_eval :
    get_cached_data (cache_data (fun _ => none : Cache Nat) "AAPL" (some 7) 0)
      "AAPL" 86400 = some 7 ∧ CACHE_DURATION ≤ 86400 - 0 := by
  decide

/-- Claim C9: `cache_data k v` followed by `get_cached_data k` before the TTL
has elapsed returns exactly `v`, and `cache_data` unconditionally overwrites
any prior entry for the key with one stamped at the write time. -/
theorem cache_put_get_roundtrip {β : Type} (c : Cache β) (k : String) (v : Option β)
    (t tg : Nat) (h1 : t ≤ tg) (h2 : tg - t < CACHE_DURATION) :
    get_cached_data (cache_data c k v t) k tg = v ∧
    cache_data c k v t k = some (t, v) := by
  have hm : (tg - t) % 86400 = tg - t :=
    Nat.mod_eq_of_lt (lt_of_lt_of_le h2 (by norm_num [CACHE_DURATION]))
  constructor
  · simp [get_cached_data, cache_data, hm, h2]
  · simp [cache_data]

/-- Witness for C9: store 5 under "AAPL" at time 0, read it back at time 10. -/
theorem cache_put_get_roundtrip_witness :
    get_cached_data (cache_data (fun _ => none : Cache Nat) "AAPL" (some 5) 0) "AAPL" 10 =
      some 5 ∧
    cache_data (fun _ => none : Cache Nat) "AAPL" (some 5) 0 "AAPL" = some (0, some 5) :=
  cache_put_get_roundtrip (fun _ => none : Cache Nat) "AAPL" (some 5) 0 10
    (by decide) (by decide)

/-- Claim C6: a cache hit short-circuits the fetcher completely: the cached
value is returned as-is and the admission gate, cache, sleep log, upstream
call count and admission-check count are all untouched. -/
theorem cache_hit_bypasses_admission_gate {ρ ι : Type} (histO : Nat → HistRes ρ)
    (infoO : Nat → ι) (times : Nat → Nat) (tc maxRetries : Nat) (k : String)
    (c : Cache (Payload ρ ι)) (rl : RateLimiter) (v : Payload ρ ι)
    (h : get_cached_data c k tc = some v) :
    get_ticker_data_with_backoff histO infoO times tc maxRetries k c rl =
      ⟨some v, c, rl, [], 0, 0⟩ := by
  simp [get_ticker_data_with_backoff, h]

/-- Witness for C6: a fresh cached payload for "AAPL" is returned untouched,
with no admission check and no upstream call. -/
theorem cache_hit_bypasses_admission_gate_witness :
    get_ticker_data_with_backoff (fun _ => HistRes.frame [1]) (fun _ => ())
        (fun _ => 10) 10 3 "AAPL"
        (cache_data (fun _ => none : Cache (Payload Nat Unit)) "AAPL" (some ⟨[2], ()⟩) 0)
        ⟨5, 60, []⟩ =
      ⟨some ⟨[2], ()⟩,
        cache_data (fun _ => none : Cache (Payload Nat Unit)) "AAPL" (some ⟨[2], ()⟩) 0,
        ⟨5, 60, []⟩, [], 0, 0⟩ :=
  cache_hit_bypasses_admission_gate _ _ _ _ _ _ _ _ _ (by decide)

/-- Claim C10: storing Python `None` under a key is indistinguishable at the
read interface from the key being absent — `get_cached_data` returns `None`
even while the entry is fresh — so the fetcher treats it as a miss and
proceeds to the admission gate and the upstream call. -/
theorem cache_none_value_indistinguishable_from_miss {β ρ ι : Type}
    (c : Cache β) (k : String) (t tg : Nat) (cf : Cache (Payload ρ ι))
    (histO : Nat → HistRes ρ) (infoO : Nat → ι) (times : Nat → Nat)
    (tc maxRetries : Nat) (rl : RateLimiter) (hret : 1 ≤ maxRetries) :
    get_cached_data (cache_data c k none t) k tg = none ∧
    get_cached_data (fun _ => none : Cache β) k tg = none ∧
    1 ≤ (get_ticker_data_with_backoff histO infoO times tc maxRetries k
          (cache_data cf k none t) rl).calls ∧
    1 ≤ (get_ticker_data_with_backoff histO infoO times tc maxRetries k
          (cache_data cf k none t) rl).admChecks := by
  have hg : ∀ {γ : Type} (c0 : Cache γ) (t0 tg0 : Nat),
      get_cached_data (cache_data c0 k none t0) k tg0 = none := by
    intro γ c0 t0 tg0
    simp [get_cached_data, cache_data]
  obtain ⟨n, rfl⟩ : ∃ n, maxRetries = n + 1 := ⟨maxRetries - 1, by omega⟩
  have hu : get_ticker_data_with_backoff histO infoO times tc (n + 1) k
      (cache_data cf k none t) rl =
      fetchLoop histO infoO times k (n + 1) 0 (cache_data cf k none t) rl [] 0 0 := by
    simp [get_ticker_data_with_backoff, hg cf t tc]
  refine ⟨hg c t tg, rfl, ?_, ?_⟩
  · rw [hu]
    simpa using fetchLoop_calls_pos histO infoO times k n 0
      (cache_data cf k none t) rl [] 0 0
  · rw [hu]
    simpa using fetchLoop_checks_pos histO infoO times k n 0
      (cache_data cf k none t) rl [] 0 0

/-- Witness for C10 at concrete inputs: a fresh `None` entry reads as `None`,
exactly as an absent key does, and the fetcher goes on to check admission
and call upstream. -/
theorem cache_none_value_indistinguishable_from_miss_witness :
    get_cached_data (cache_data (fun _ => none : Cache Nat) "AAPL" none 0) "AAPL" 10 = none ∧
    get_cached_data (fun _ => none : Cache Nat) "AAPL" 10 = none ∧
    1 ≤ (get_ticker_data_with_backoff (fun _ => HistRes.frame [1]) (fun _ => ())
          (fun _ => 0) 0 3 "AAPL"
          (cache_data (fun _ => none : Cache (Payload Nat Unit)) "AAPL" none 0)
          ⟨5, 60, []⟩).calls ∧
    1 ≤ (get_ticker_data_with_backoff (fun _ => HistRes.frame [1]) (fun _ => ())
          (fun _ => 0) 0 3 "AAPL"
          (cache_data (fun _ => none : Cache (Payload Nat Unit)) "AAPL" none 0)
          ⟨5, 60, []⟩).admChecks :=
  cache_none_value_indistinguishable_from_miss (fun _ => none : Cache Nat) "AAPL" 0 10
    (fun _ => none : Cache (Payload Nat Unit)) (fun _ => HistRes.frame [1]) (fun _ => ())
    (fun _ => 0) 0 3 ⟨5, 60, []⟩ (by decide)

/-- Claim C7: the fetcher never propagates an upstream fault to its caller:
raised exceptions are consumed as classified data inside the retry loop, so
when every one of the `maxRetries` attempts fails (empty frame or exception,
in any mix) the fetcher returns the absence indicator `none` rather than
throwing; and the batch loop places every requested ticker into either the
rows or the failed list, so one key's exhaustion never aborts the batch. -/
theorem fetcher_exhaustion_returns_none_batch_continues {ρ ι : Type}
    (histO : Nat → HistRes ρ) (infoO : Nat → ι) (times : Nat → Nat)
    (tc maxRetries : Nat) (k : String) (c : Cache (Payload ρ ι)) (rl : RateLimiter)
    (hmiss : get_cached_data c k tc = none)
    (hfail : ∀ i, i < maxRetries → attemptFails (histO i) = true)
    (bHistO : String → Nat → HistRes ρ) (bInfoO : String → Nat → ι)
    (bTimes : String → Nat → Nat) (bTc : String → Nat)
    (ts : List String) (t : String) (bc : Cache (Payload ρ ι)) (brl : RateLimiter)
    (ht : t ∈ ts) :
    (get_ticker_data_with_backoff histO infoO times tc maxRetries k c rl).result = none ∧
    (t ∈ (processTickers bHistO bInfoO bTimes bTc ts bc brl).rows ∨
      t ∈ (processTickers bHistO bInfoO bTimes bTc ts bc brl).failed) := by
  constructor
  · have hu : get_ticker_data_with_backoff histO infoO times tc maxRetries k c rl =
        fetchLoop histO infoO times k maxRetries 0 c rl [] 0 0 := by
      simp [get_ticker_data_with_backoff, hmiss]
    rw [hu]
    exact fetchLoop_result_none histO infoO times k maxRetries 0 c rl [] 0 0
      fun i _ h2 => hfail i (by omega)
  · exact processTickers_mem bHistO bInfoO bTimes bTc ts bc brl t ht

/-- Witness for C7: a ticker whose three attempts all raise is reported as
`none`, and in a two-ticker batch it still lands in the failed list. -/
theorem fetcher_exhaustion_returns_none_batch_continues_witness :
    (get_ticker_data_with_backoff (fun _ => HistRes.exn "boom") (fun _ => ())
        (fun _ => 0) 0 3 "B" (fun _ => none : Cache (Payload Nat Unit))
        ⟨5, 60, []⟩).result = none ∧
    ("B" ∈ (processTickers (fun t _ => if t = "B" then HistRes.exn "boom"
          else HistRes.frame [1]) (fun _ _ => ()) (fun _ _ => 0) (fun _ => 0)
          ["A", "B"] (fun _ => none : Cache (Payload Nat Unit)) ⟨5, 60, []⟩).rows ∨
      "B" ∈ (processTickers (fun t _ => if t = "B" then HistRes.exn "boom"
          else HistRes.frame [1]) (fun _ _ => ()) (fun _ _ => 0) (fun _ => 0)
          ["A", "B"] (fun _ => none : Cache (Payload Nat Unit)) ⟨5, 60, []⟩).failed) :=
  fetcher_exhaustion_returns_none_batch_continues (fun _ => HistRes.exn "boom")
    (fun _ => ()) (fun _ => 0) 0 3 "B" (fun _ => none : Cache (Payload Nat Unit))
    ⟨5, 60, []⟩ rfl (by decide)
    (fun t _ => if t = "B" then HistRes.exn "boom" else HistRes.frame [1])
    (fun _ _ => ()) (fun _ _ => 0) (fun _ => 0) ["A", "B"] "B"
    (fun _ => none : Cache (Payload Nat Unit)) ⟨5, 60, []⟩ (by decide)

/-- Claim C4 counterexample: with the first attempt returning an empty frame
(a Transient failure) and the second succeeding, the sleep before the second
attempt is `2 ^ 0 = 1` second — not the claimed `2 ^ 1 = 2` seconds.  The
code's backoff is `2 ** attempt` with `attempt` the 0-based index of the
attempt that just failed (src/app.py line 116). -/
theorem transient_backoff_first_sleep_counterexample :
    (get_ticker_data_with_backoff
        (fun i => if i = 0 then HistRes.frame [] else HistRes.frame [5]) (fun _ => ())
        (fun _ => 0) 0 3 "AAPL" (fun _ => none : Cache (Payload Nat Unit))
        ⟨5, 60, []⟩).sleeps.head? = some 1 ∧ (1 : Nat) ≠ 2 ^ 1 := by
  decide

/-- Claim C4 (amended): a fetch whose first attempt (0-based index 0) fails
with a Transient classification — an empty frame, or an exception whose
message does not signal a rate limit — under an admitting gate sleeps
`2 ^ 0 = 1` second before the second attempt. -/
theorem transient_backoff_first_sleep_amended {ρ ι : Type}
    (histO : Nat → HistRes ρ) (infoO : Nat → ι) (times : Nat → Nat)
    (tc maxRetries : Nat) (k : String) (c : Cache (Payload ρ ι)) (rl : RateLimiter)
    (hmiss : get_cached_data c k tc = none)
    (hadm : (can_make_request rl (times 0)).1 = true)
    (hfail : histO 0 = HistRes.frame [] ∨
      ∃ e, histO 0 = HistRes.exn e ∧ isRateLimitMsg e = false)
    (hret : 1 ≤ maxRetries) :
    (get_ticker_data_with_backoff histO infoO times tc maxRetries k c rl).sleeps.head? =
      some (2 ^ 0) := by
  obtain ⟨n, rfl⟩ : ∃ n, maxRetries = n + 1 := ⟨maxRetries - 1, by omega⟩
  have hu : get_ticker_data_with_backoff histO infoO times tc (n + 1) k c rl =
      fetchLoop histO infoO times k (n + 1) 0 c rl [] 0 0 := by
    simp [get_ticker_data_with_backoff, hmiss]
  rw [hu]
  rcases hfail with h0 | ⟨e, h0, he⟩
  · simp only [fetchLoop, h0, hadm, if_true, List.nil_append]
    exact fetchLoop_sleeps_head _ _ _ _ _ _ _ _ _ _ _ _
  · simp only [fetchLoop, h0, he, Bool.false_eq_true, if_false, hadm, if_true,
      List.nil_append]
    exact fetchLoop_sleeps_head _ _ _ _ _ _ _ _ _ _ _ _

/-- Witness for the amended C4: empty frames throughout, gate empty; the
first recorded sleep is `2 ^ 0`. -/
theorem transient_backoff_first_sleep_amended_witness :
    (get_ticker_data_with_backoff (fun _ => HistRes.frame ([] : List Nat)) (fun _ => ())
        (fun _ => 0) 0 3 "AAPL" (fun _ => none : Cache (Payload Nat Unit))
        ⟨5, 60, []⟩).sleeps.head? = some (2 ^ 0) :=
  transient_backoff_first_sleep_amended _ _ _ _ _ _ _ _ rfl (by decide)
    (Or.inl rfl) (by decide)

/-- Claim C5 counterexample: with the first attempt raising an HTTP-429
style error and the second succeeding, the sleep before the second attempt
is `3 ^ 0 + 5 = 6` seconds — not the claimed `3 ^ 1 + 5 = 8`.  The code's
rate-limit backoff is `3 ** attempt + 5` with `attempt` the 0-based index of
the failed attempt (src/app.py line 148). -/
theorem rate_limited_backoff_first_sleep_counterexample :
    (get_ticker_data_with_backoff
        (fun i => if i = 0 then HistRes.exn "HTTP 429" else HistRes.frame [5]) (fun _ => ())
        (fun _ => 0) 0 3 "AAPL" (fun _ => none : Cache (Payload Nat Unit))
        ⟨5, 60, []⟩).sleeps.head? = some 6 ∧ (6 : Nat) ≠ 3 ^ 1 + 5 := by
  decide

/-- Claim C5 (amended): a fetch whose first attempt (0-based index 0) raises
an exception classified as rate-limited ("429" or "Too Many Requests" in the
message) under an admitting gate sleeps `3 ^ 0 + 5 = 6` seconds before the
second attempt. -/
theorem rate_limited_backoff_first_sleep_amended {ρ ι : Type}
    (histO : Nat → HistRes ρ) (infoO : Nat → ι) (times : Nat → Nat)
    (tc maxRetries : Nat) (k : String) (c : Cache (Payload ρ ι)) (rl : RateLimiter)
    (hmiss : get_cached_data c k tc = none)
    (hadm : (can_make_request rl (times 0)).1 = true)
    (hfail : ∃ e, histO 0 = HistRes.exn e ∧ isRateLimitMsg e = true)
    (hret : 1 ≤ maxRetries) :
    (get_ticker_data_with_backoff histO infoO times tc maxRetries k c rl).sleeps.head? =
      some (3 ^ 0 + 5) := by
  obtain ⟨n, rfl⟩ : ∃ n, maxRetries = n + 1 := ⟨maxRetries - 1, by omega⟩
  have hu : get_ticker_data_with_backoff histO infoO times tc (n + 1) k c rl =
      fetchLoop histO infoO times k (n + 1) 0 c rl [] 0 0 := by
    simp [get_ticker_data_with_backoff, hmiss]
  rw [hu]
  obtain ⟨e, h0, he⟩ := hfail
  simp only [fetchLoop, h0, he, if_true, hadm, List.nil_append]
  exact fetchLoop_sleeps_head _ _ _ _ _ _ _ _ _ _ _ _

/-- Witness for the amended C5: every attempt raises "HTTP 429"; the first
recorded sleep is `3 ^ 0 + 5`. -/
theorem rate_limited_backoff_first_sleep_amended_witness :
    (get_ticker_data_with_backoff (fun _ => HistRes.exn "HTTP 429") (fun _ => ())
        (fun _ => 0) 0 3 "AAPL" (fun _ => none : Cache (Payload Nat Unit))
        ⟨5, 60, []⟩).sleeps.head? = some (3 ^ 0 + 5) :=
  rate_limited_backoff_first_sleep_amended (ρ := Nat) _ _ _ _ _ _ _ _ rfl (by decide)
    ⟨"HTTP 429", rfl, by decide⟩ (by decide)

/-- Claim C8 (code-bug evaluation): on a denied admission the fetcher sleeps
`wait_time + 1` and then proceeds straight to the upstream call without
re-checking admission (exactly one admission check and one upstream call in
the run below).  But `wait_time` is `time_window - (now - oldest).seconds`
with the timedelta's mod-86400 seconds component: with five requests
recorded exactly 86400 seconds (one day) ago, the claim's formula
`d = max(0, window - (now - oldest)) = 0` prescribes a sleep of 1 second,
while the code computes `d = 60` and sleeps 61. -/
theorem denied_admission_wait_eval :
    (get_ticker_data_with_backoff (fun _ => HistRes.frame [7]) (fun _ => ())
        (fun _ => 86400) 0 3 "AAPL" (fun _ => none : Cache (Payload Nat Unit))
        ⟨5, 60, [0, 0, 0, 0, 0]⟩).sleeps = [61, 1] ∧
    (get_ticker_data_with_backoff (fun _ => HistRes.frame [7]) (fun _ => ())
        (fun _ => 86400) 0 3 "AAPL" (fun _ => none : Cache (Payload Nat Unit))
        ⟨5, 60, [0, 0, 0, 0, 0]⟩).admChecks = 1 ∧
    (get_ticker_data_with_backoff (fun _ => HistRes.frame [7]) (fun _ => ())
        (fun _ => 86400) 0 3 "AAPL" (fun _ => none : Cache (Payload Nat Unit))
        ⟨5, 60, [0, 0, 0, 0, 0]⟩).calls = 1 ∧
    (61 : Nat) ≠ (60 - (86400 - 0)) + 1 := by
  decide

/-- Claim C1 (code-bug evaluation): a batch of three tickers in which `B`
exhausts all retries while `A` and `C` succeed yields the two successful
rows and names `B` in `failed_tickers` — but the overall status is
`"success"`, not a partial-success marker.  The status ternary of
src/app.py line 235 tests `rows` first, so `"partial_success"` could only
be produced with `rows` empty, and that case returns the 404 `"error"` body
of lines 247-252 instead. -/
theorem get_stock_data_partial_batch_status_eval :
    get_stock_data (fun t _ => if t = "B" then HistRes.exn "boom" else HistRes.frame [1])
        (fun _ _ => ()) (fun _ _ => 0) (fun _ => 0) ["A", "B", "C"]
        (fun _ => none : Cache (Payload Nat Unit)) ⟨5, 60, []⟩ =
      ⟨"success", ["A", "C"], 2, 3, ["B"], 200⟩ := by
  decide
